import Mathlib

/-!
# Enigma contract: the out-of-gas integration test and the deposit dialog

Two source files are embedded here.

* `enigma-js/test/integrationTests/template.20_execute_fail_outofgas.js`:
  the four test steps (submit a compute task, read the task record once,
  poll the task record until `ethStatus` is 3, fetch and decrypt the result).
  The ledger is an oracle: the list of `ethStatus` values it answers to the
  successive `getTaskRecordStatus` calls, and the time each answer takes.
  The steps are separate callbacks that the test runner starts one after the
  other; a step that has not ended when its time limit runs out is failed by
  the runner, which then starts the next step all the same.
* `src/DepositDialog.js`: the React component state `{open, deal, deposit}`
  and its handlers, with `setState` as a merge of a partial state.
-/

namespace Enigma

/-! ## The integration test -/

/-- The task object held in the test variable `task`. Only the fields the
test reads are kept. -/
structure Task where
  ethStatus : Nat
  engStatus : String
  encryptedAbiEncodedOutputs : String
  workerTaskSig : String
  decryptedOutput : String
  deriving DecidableEq, Repr

/-- The arguments of the one `enigma.computeTask(...)` call of the test. -/
structure ComputeTaskArgs where
  fn : String
  args : List (Nat × String)
  gasLimit : Nat
  gasPx : Nat
  sender : String
  scAddr : String
  deriving DecidableEq, Repr

/-- What the worker network answers to `getTaskResult`. -/
structure WorkerAnswer where
  engStatus : String
  encryptedAbiEncodedOutputs : String
  workerTaskSig : String
  deriving DecidableEq, Repr

/-- The calls the test issues, in the order it issues them. A
`getTaskRecordStatus` call is recorded with the `ethStatus` the ledger
answered to it. -/
inductive Call where
  | computeTask (a : ComputeTaskArgs)
  | sleep (ms : Nat)
  | getTaskRecordStatus (answer : Nat)
  | getTaskResult
  | decryptTaskResult
  deriving DecidableEq, Repr

/-- The running test: the variable `task`, the number of task-record reads
issued so far and the calls issued so far. -/
structure Run where
  task : Task
  reads : Nat
  calls : List Call
  deriving DecidableEq, Repr

/-- Where a test step stands once the supplied ledger answers are used up:
`returned` when the step body ran to its end, `waiting` when the step is
blocked on a ledger read that has no answer yet (for the polling loop: the
loop condition held after every answer so far, the next action is another
sleep and read). -/
inductive Outcome where
  | returned (r : Run)
  | waiting (r : Run)
  deriving DecidableEq, Repr

/-- The run an outcome carries. -/
def Outcome.run : Outcome → Run
  | .returned r => r
  | .waiting r => r

/-- Whether the step body ran to its end. -/
def Outcome.isReturned : Outcome → Bool
  | .returned _ => true
  | .waiting _ => false

/-- Modelled from the spec: `enigma.getTaskRecordStatus(task)` of class
`Enigma`, which is not among the sources. It resolves to the task with
`ethStatus` set to the status the ledger holds for the task record. -/
def getTaskRecordStatus (task : Task) (answer : Nat) : Task :=
  { task with ethStatus := answer }

/-- One pass through the body of the `do ... while` loop (lines 75-77):
`await sleep(1000)`, then `task = await enigma.getTaskRecordStatus(task)`. -/
def pollBody (r : Run) (answer : Nat) : Run :=
  { task := getTaskRecordStatus r.task answer
    reads := r.reads + 1
    calls := r.calls ++ [Call.sleep 1000, Call.getTaskRecordStatus answer] }

/-- The loop of `should get the failed task receipt` (lines 74-78):
`do { body } while (task.ethStatus != 3)`. The body runs before the
condition is looked at; the loop is left only when the status just read is 3. -/
def pollLoop (r : Run) : List Nat → Outcome
  | [] => .waiting r
  | answer :: rest =>
    let r1 := pollBody r answer
    if r1.task.ethStatus != 3 then pollLoop r1 rest else .returned r1

/-- The values of `taskFn`, `taskArgs`, `taskGasLimit` of the first step
(lines 54-59). -/
def taskFn : String := "add(uint,uint)"

/-- See `taskFn`. -/
def taskArgs : List (Nat × String) := [(24, "uint256"), (67, "uint256")]

/-- See `taskFn`. -/
def taskGasLimit : Nat := 1

/-- The arguments of the call on line 62. `toGrains` (of `enigma-utils`),
`accounts[0]` and the calculator address read from disk are parameters. -/
def computeTaskCall (toGrains : Nat → Nat) (account0 calculatorAddr : String) :
    ComputeTaskArgs :=
  { fn := taskFn
    args := taskArgs
    gasLimit := taskGasLimit
    gasPx := toGrains 1
    sender := account0
    scAddr := calculatorAddr }

/-- The step `should execute compute task` (lines 53-66): one `computeTask`
call; `task` becomes the submitted task. -/
def stepCompute (toGrains : Nat → Nat) (account0 calculatorAddr : String)
    (submitted : Task) : Run :=
  { task := submitted
    reads := 0
    calls := [Call.computeTask (computeTaskCall toGrains account0 calculatorAddr)] }

/-- The step `should get the pending task` (lines 68-71): one read of the
task record. The expectation on line 70 does not change `task`. -/
def stepPending (r : Run) : List Nat → Outcome × List Nat
  | [] => (.waiting r, [])
  | answer :: rest =>
    (.returned
      { task := getTaskRecordStatus r.task answer
        reads := r.reads + 1
        calls := r.calls ++ [Call.getTaskRecordStatus answer] }, rest)

/-- A string is truthy when it is not empty (lines 90-91). -/
def truthy (s : String) : Bool := s != ""

/-- The step `should get the failed result` (lines 83-94): `getTaskResult`,
the three expectations, then `decryptTaskResult`. A failed expectation ends
the step before the decryption call. -/
def stepResult (r : Run) (w : WorkerAnswer) (decrypted : String) : Run :=
  let fetched : Task :=
    { r.task with
      engStatus := w.engStatus
      encryptedAbiEncodedOutputs := w.encryptedAbiEncodedOutputs
      workerTaskSig := w.workerTaskSig }
  let r1 : Run := { r with task := fetched, calls := r.calls ++ [Call.getTaskResult] }
  if w.engStatus = "FAILED" ∧ truthy w.encryptedAbiEncodedOutputs = true
      ∧ truthy w.workerTaskSig = true then
    { r1 with
      task := { fetched with decryptedOutput := decrypted }
      calls := r1.calls ++ [Call.decryptTaskResult] }
  else r1

/-- Everything outside the test that the flow depends on. `latency i` is the
time in ms that the ledger takes to answer read number `i` of the polling
step. -/
structure World where
  toGrains : Nat → Nat
  account0 : String
  calculatorAddr : String
  submitted : Task
  worker : WorkerAnswer
  decrypted : String
  latency : Nat → Nat

/-- The time limit of the polling step, in ms (the `10000` of line 81). -/
def pollLimitMs : Nat := 10000

/-- The ledger answers that reach the polling loop before the time limit of
its step runs out. Pass number `pass` of the loop starts `elapsed` ms into
the step, sleeps 1000 ms (line 75) and gets its answer `latency pass` ms
later; it counts when that is before the limit. No answer left means that
the ledger leaves the read pending. -/
def answeredInTime (latency : Nat → Nat) (elapsed pass : Nat) : List Nat → List Nat
  | [] => []
  | answer :: rest =>
    if elapsed + 1000 + latency pass < pollLimitMs then
      answer :: answeredInTime latency (elapsed + 1000 + latency pass) (pass + 1) rest
    else []

/-- The step `should get the failed task receipt` (lines 73-81) as the runner
sees it: the loop of lines 74-78 on the answers that arrive within the time
limit. `returned`: the loop was left on a 3 in time. `waiting`: the limit ran
out with the loop still polling; the runner fails the step. -/
def pollStep (latency : Nat → Nat) (r : Run) (answers : List Nat) : Outcome :=
  pollLoop r (answeredInTime latency 0 0 answers)

/-- The flow up to the end of the polling step: submit, read the status once,
poll. A step that the runner has failed (a read left pending, the time limit
of the polling step) does not keep the next step from starting. -/
def flowPolling (w : World) (answers : List Nat) : Outcome :=
  match stepPending (stepCompute w.toGrains w.account0 w.calculatorAddr w.submitted) answers with
  | (out, rest) => pollStep w.latency out.run rest

/-- The end-to-end flow of the four steps against the ledger answers
`answers`: the runner starts `should get the failed result` when the polling
step has ended, whether the loop returned or the step was failed. The calls
are recorded up to the end of the last step; reads that a polling loop left
behind by the runner goes on to issue are not. A failed expectation ends its
own step only; the expectations of lines 70 and 79 come last in their steps
and change nothing. -/
def flow (w : World) (answers : List Nat) : Run :=
  stepResult (flowPolling w answers).run w.worker w.decrypted

/-- A terminal `ethStatus`: 2 (RECEIPT_VERIFIED) or 3 (FAILED). -/
def terminal (s : Nat) : Bool := s == 2 || s == 3

/-- A fresh run around a task: no read and no call issued yet. -/
def start (task : Task) : Run := { task := task, reads := 0, calls := [] }

/-- A task whose `ethStatus` is `s` and whose other fields are empty. -/
def taskAt (s : Nat) : Task :=
  { ethStatus := s, engStatus := "", encryptedAbiEncodedOutputs := "",
    workerTaskSig := "", decryptedOutput := "" }

/-- A concrete world for evaluating the flow: grains are 10^8 units, the
worker reports a failed engine run with a non-empty output and signature,
the ledger answers every read at once. -/
def sampleWorld : World :=
  { toGrains := fun n => n * 100000000
    account0 := "0xacc0"
    calculatorAddr := "0xca1c"
    submitted := taskAt 0
    worker := { engStatus := "FAILED", encryptedAbiEncodedOutputs := "0e", workerTaskSig := "51" }
    decrypted := "out of gas"
    latency := fun _ => 0 }

end Enigma

namespace DepositDialog

/-! ## The deposit dialog -/

/-- A JavaScript value as it occurs in a field of `deal` or `deposit`. -/
inductive Val where
  | undefined
  | null
  | bool (b : Bool)
  | num (n : Int)
  | str (s : String)
  deriving DecidableEq, Repr

/-- The prototype of a plain object: `Object.prototype`, or none after the
prototype has been set to `null`. -/
inductive Proto where
  | objectPrototype
  | null
  deriving DecidableEq, Repr

/-- A plain object: its own properties, in insertion order, and its
prototype. -/
structure Obj where
  props : List (String × Val)
  proto : Proto
  deriving DecidableEq, Repr

/-- The object literal with the given properties; its prototype is
`Object.prototype`. -/
def literal (props : List (String × Val)) : Obj :=
  { props := props, proto := Proto.objectPrototype }

/-- The value of the own property `name` in a property list; `undefined`
when there is none. -/
def lookupOwn : List (String × Val) → String → Val
  | [], _ => Val.undefined
  | (k, v) :: rest, name => if k = name then v else lookupOwn rest name

/-- Whether a property list has a property `name`. -/
def hasOwn : List (String × Val) → String → Bool
  | [], _ => false
  | (k, _) :: rest, name => if k = name then true else hasOwn rest name

/-- Write of the own property `name` in a property list: an existing property
keeps its place and takes the new value, a new one is added at the end. -/
def writeOwn : List (String × Val) → String → Val → List (String × Val)
  | [], name, value => [(name, value)]
  | (k, v) :: rest, name, value =>
    if k = name then (k, value) :: rest else (k, v) :: writeOwn rest name value

/-- Property read `o[name]` of an own property; a name that is not an own
property of `o` reads as `undefined` here (what `Object.prototype` provides
under such a name is not a field of the object). -/
def getProp (o : Obj) (name : String) : Val :=
  lookupOwn o.props name

/-- Property write `o[name] = value`. The name `__proto__` on an object that
has `Object.prototype` as prototype and no own property of that name goes to
the inherited setter: the value `null` sets the prototype to `null`, any other
primitive value is ignored, and no own property is written. Every other
write sets the own property. -/
def setProp (o : Obj) (name : String) (value : Val) : Obj :=
  if name = "__proto__" ∧ hasOwn o.props name = false ∧ o.proto = Proto.objectPrototype then
    match value with
    | Val.null => { o with proto := Proto.null }
    | _ => o
  else { o with props := writeOwn o.props name value }

/-- The component state (lines 17-21); `open_` stands for the field `open`. -/
structure State where
  open_ : Bool
  deal : Obj
  deposit : Obj
  deriving DecidableEq, Repr

/-- The initial state `{open: false, deal: {}, deposit: {}}`. -/
def initialState : State := { open_ := false, deal := literal [], deposit := literal [] }

/-- The argument of one `setState` call: the fields it names. -/
structure Patch where
  open_ : Option Bool
  deal : Option Obj
  deposit : Option Obj
  deriving DecidableEq, Repr

/-- `this.setState(patch)`: the named fields are replaced, the others kept. -/
def setState (s : State) (p : Patch) : State :=
  { open_ := p.open_.getD s.open_
    deal := p.deal.getD s.deal
    deposit := p.deposit.getD s.deposit }

/-- The props the component reads from `nextProps`: `open` and `deal`
(`none` when `deal` is not defined). -/
structure Props where
  open_ : Bool
  deal : Option Obj
  deriving DecidableEq, Repr

/-- The calls a handler makes outside the component. -/
inductive Effect where
  | makeDeposit (deal deposit : Obj)
  | onClose
  | preventDefault
  deriving DecidableEq, Repr

/-- The part of a change event the component reads: `event.target.name`
and `event.target.value`. -/
structure ChangeEvent where
  name : String
  value : Val
  deriving DecidableEq, Repr

/-- `componentWillReceiveProps(nextProps)` (lines 23-27): three `setState`
calls in a row. Reading `nextProps.deal.deposit` throws when `deal` is not
defined: no state comes out (`none`). -/
def componentWillReceiveProps (s : State) (nextProps : Props) : Option State :=
  let s1 := setState s { open_ := some nextProps.open_, deal := none, deposit := none }
  match nextProps.deal with
  | none => none
  | some deal =>
    let s2 := setState s1 { open_ := none, deal := some deal, deposit := none }
    some (setState s2
      { open_ := none, deal := none
        deposit := some (literal [("amount", getProp deal "deposit")]) })

/-- `handleMakeDeposit` (lines 29-32): call `props.makeDeposit` with the
state's `deal` and `deposit`, then close. -/
def handleMakeDeposit (s : State) : State × List Effect :=
  (setState s { open_ := some false, deal := none, deposit := none },
    [Effect.makeDeposit s.deal s.deposit])

/-- `handleClose` (lines 34-37): close, then call `props.onClose`. -/
def handleClose (s : State) : State × List Effect :=
  (setState s { open_ := some false, deal := none, deposit := none }, [Effect.onClose])

/-- `updateDepositState(event)` (lines 39-48): write the field named by the
event into the state's `deposit` object and set that object as `deposit`. -/
def updateDepositState (s : State) (event : ChangeEvent) : State × List Effect :=
  let deposit := setProp s.deposit event.name event.value
  (setState s { open_ := none, deal := none, deposit := some deposit },
    [Effect.preventDefault])

/-- The events the rendered dialog passes to the handlers (lines 52-84). -/
inductive UiEvent where
  | close
  | makeDeposit
  | change (event : ChangeEvent)
  deriving DecidableEq, Repr

/-- The handler the dialog runs on an event. -/
def handle (s : State) : UiEvent → State × List Effect
  | .close => handleClose s
  | .makeDeposit => handleMakeDeposit s
  | .change event => updateDepositState s event

/-- A sequence of events, handled in order; the outside calls are collected
in order. -/
def runEvents (s : State) : List UiEvent → State × List Effect
  | [] => (s, [])
  | e :: rest =>
    ((runEvents (handle s e).1 rest).1, (handle s e).2 ++ (runEvents (handle s e).1 rest).2)

/-- The invariant of the amount field: `state.deposit.amount` equals
`state.deal.deposit`. -/
def AmountOk (s : State) : Prop :=
  getProp s.deposit "amount" = getProp s.deal "deposit"

/-- A deal of 5 with a title, for evaluating the handlers. -/
def sampleDeal : Obj := literal [("title", Val.str "mix"), ("deposit", Val.num 5)]

end DepositDialog

namespace Enigma

theorem foldl_pollBody_reads (answers : List Nat) (r : Run) :
    (answers.foldl pollBody r).reads = r.reads + answers.length := by
  induction answers generalizing r with
  | nil => simp
  | cons a rest ih =>
    simp only [List.foldl_cons, List.length_cons, ih, pollBody]
    omega

theorem pollLoop_not_mem (answers : List Nat) (r : Run) (h : 3 ∉ answers) :
    pollLoop r answers = .waiting (answers.foldl pollBody r) := by
  induction answers generalizing r with
  | nil => rfl
  | cons a rest ih =>
    have ha : a ≠ 3 := fun e => h (by simp [e])
    have hrest : 3 ∉ rest := fun e => h (by simp [e])
    simp [pollLoop, pollBody, getTaskRecordStatus, ha]
    exact ih _ hrest

theorem pollLoop_mem (answers : List Nat) (r : Run) (h : 3 ∈ answers) :
    pollLoop r answers =
      .returned (pollBody ((answers.take (answers.indexOf 3)).foldl pollBody r) 3) := by
  induction answers generalizing r with
  | nil => simp at h
  | cons a rest ih =>
    by_cases ha : a = 3
    · subst ha
      simp [pollLoop, pollBody, getTaskRecordStatus]
    · have hrest : 3 ∈ rest := by
        rcases List.mem_cons.mp h with e | e
        · exact absurd e.symm ha
        · exact e
      have hne : (3 : Nat) ≠ a := fun e => ha e.symm
      rw [List.indexOf_cons_ne _ (Ne.symm hne)]
      simp only [pollLoop, List.take_succ_cons, List.foldl_cons]
      have hb : ((pollBody r a).task.ethStatus != 3) = true := by
        simp [pollBody, getTaskRecordStatus, ha]
      rw [if_pos hb]
      exact ih _ hrest

theorem foldl_pollBody_task (answers : List Nat) (r : Run) (k : Nat) :
    ({ (answers.foldl pollBody r).task with ethStatus := k } : Task)
      = { r.task with ethStatus := k } := by
  induction answers generalizing r with
  | nil => rfl
  | cons a rest ih =>
    simp only [List.foldl_cons]
    rw [ih]
    rfl

theorem pollLoop_reads_le (answers : List Nat) (r : Run) :
    r.reads ≤ (pollLoop r answers).run.reads := by
  induction answers generalizing r with
  | nil => simp [pollLoop, Outcome.run]
  | cons a rest ih =>
    simp only [pollLoop]
    split
    · have := ih (pollBody r a)
      simp only [pollBody] at this ⊢
      omega
    · simp [Outcome.run, pollBody]

theorem pollLoop_reads_ge (answers : List Nat) (a : Nat) (r : Run) :
    r.reads + 1 ≤ (pollLoop r (a :: answers)).run.reads := by
  simp only [pollLoop]
  split
  · have := pollLoop_reads_le answers (pollBody r a)
    simp only [pollBody] at this ⊢
    omega
  · simp [Outcome.run, pollBody]

theorem pollLoop_calls (answers : List Nat) (r : Run) :
    ∃ ext, (pollLoop r answers).run.calls = r.calls ++ ext ∧ Call.getTaskResult ∉ ext := by
  induction answers generalizing r with
  | nil => exact ⟨[], by simp [pollLoop, Outcome.run], by simp⟩
  | cons a rest ih =>
    simp only [pollLoop]
    split
    · obtain ⟨ext, h1, h2⟩ := ih (pollBody r a)
      refine ⟨[Call.sleep 1000, Call.getTaskRecordStatus a] ++ ext, ?_, ?_⟩
      · rw [h1]; simp [pollBody]
      · simp [h2]
    · exact ⟨[Call.sleep 1000, Call.getTaskRecordStatus a], by simp [Outcome.run, pollBody],
        by simp⟩

theorem pollLoop_returned_read (answers : List Nat) (r0 r : Run)
    (h : pollLoop r0 answers = .returned r) :
    Call.getTaskRecordStatus 3 ∈ r.calls := by
  by_cases hm : 3 ∈ answers
  · rw [pollLoop_mem answers r0 hm] at h
    rw [← Outcome.returned.inj h]
    simp [pollBody]
  · rw [pollLoop_not_mem answers r0 hm] at h
    cases h

theorem stepResult_calls (r : Run) (w : WorkerAnswer) (decrypted : String) :
    ∃ tail, (stepResult r w decrypted).calls = r.calls ++ Call.getTaskResult :: tail := by
  unfold stepResult
  simp only []
  split
  · exact ⟨[Call.decryptTaskResult], by simp⟩
  · exact ⟨[], by simp⟩

theorem flowPolling_calls (w : World) (answers : List Nat) :
    ∃ ext, (flowPolling w answers).run.calls
        = Call.computeTask (computeTaskCall w.toGrains w.account0 w.calculatorAddr) :: ext ∧
      Call.getTaskResult ∉ ext := by
  cases answers with
  | nil =>
    exact ⟨[], by simp [flowPolling, stepPending, stepCompute, pollStep, answeredInTime,
      pollLoop, Outcome.run], by simp⟩
  | cons a rest =>
    simp only [flowPolling, stepPending, pollStep, Outcome.run]
    obtain ⟨ext, h1, h2⟩ := pollLoop_calls (answeredInTime w.latency 0 0 rest)
      { task := getTaskRecordStatus
          (stepCompute w.toGrains w.account0 w.calculatorAddr w.submitted).task a
        reads := (stepCompute w.toGrains w.account0 w.calculatorAddr w.submitted).reads + 1
        calls := (stepCompute w.toGrains w.account0 w.calculatorAddr w.submitted).calls
          ++ [Call.getTaskRecordStatus a] }
    refine ⟨Call.getTaskRecordStatus a :: ext, ?_, by simp [h2]⟩
    simp only [Outcome.run] at h1
    rw [h1]
    simp [stepCompute]

theorem flowPolling_returned_read (w : World) (answers : List Nat)
    (h : (flowPolling w answers).isReturned = true) :
    Call.getTaskRecordStatus 3 ∈ (flowPolling w answers).run.calls := by
  generalize hout : flowPolling w answers = out at h
  cases out with
  | waiting r => simp [Outcome.isReturned] at h
  | returned r =>
    simp only [Outcome.run]
    unfold flowPolling pollStep at hout
    exact pollLoop_returned_read _ _ _ hout

end Enigma

namespace Enigma

/-- C1: whenever the polling loop returns, the status it read last is a
terminal one, 2 or 3 (it is 3), never 0 or 1. -/
theorem pollLoop_returns_on_terminal (r0 r : Run) (answers : List Nat)
    (h : pollLoop r0 answers = .returned r) :
    r0.reads < r.reads ∧
    answers[r.reads - r0.reads - 1]? = some r.task.ethStatus ∧
    (r.task.ethStatus = 2 ∨ r.task.ethStatus = 3) ∧
    r.task.ethStatus ≠ 0 ∧ r.task.ethStatus ≠ 1 := by
  by_cases hm : 3 ∈ answers
  · rw [pollLoop_mem answers r0 hm] at h
    have hr := (Outcome.returned.inj h).symm
    have hreads : r.reads = r0.reads + answers.indexOf 3 + 1 := by
      rw [hr]
      simp only [pollBody, foldl_pollBody_reads, List.length_take]
      have := List.indexOf_le_length (a := 3) (l := answers)
      omega
    have hstatus : r.task.ethStatus = 3 := by rw [hr]; rfl
    have hidx : r.reads - r0.reads - 1 = answers.indexOf 3 := by omega
    have hlt : answers.indexOf 3 < answers.length := List.indexOf_lt_length.mpr hm
    refine ⟨by omega, ?_, Or.inr hstatus, by omega, by omega⟩
    rw [hidx, hstatus, List.getElem?_eq_getElem hlt]
    simp
  · rw [pollLoop_not_mem answers r0 hm] at h
    cases h

/-- Witness for `pollLoop_returns_on_terminal`: the answers 0, 1, 1, 3. -/
theorem pollLoop_returns_on_terminal_witness :
    pollLoop (start (taskAt 0)) [0, 1, 1, 3]
        = .returned (pollBody (pollBody (pollBody (pollBody (start (taskAt 0)) 0) 1) 1) 3) ∧
      (0 < 4 ∧ [0, 1, 1, 3][(4 : Nat) - 0 - 1]? = some 3 ∧
        ((3 : Nat) = 2 ∨ (3 : Nat) = 3) ∧ (3 : Nat) ≠ 0 ∧ (3 : Nat) ≠ 1) :=
  ⟨by decide,
   pollLoop_returns_on_terminal (start (taskAt 0))
      (pollBody (pollBody (pollBody (pollBody (start (taskAt 0)) 0) 1) 1) 3)
      [0, 1, 1, 3] (by decide)⟩

/-- C2 as stated fails: on the answers 0, 1, 1, 2 the loop has not returned
after the fourth read, and a fifth answer is read as well. -/
theorem pollLoop_0112_not_returned :
    (pollLoop (start (taskAt 0)) [0, 1, 1, 2]).isReturned = false ∧
      (pollLoop (start (taskAt 0)) [0, 1, 1, 2]).run.task.ethStatus = 2 ∧
      (pollLoop (start (taskAt 0)) [0, 1, 1, 2, 1]).run.reads = 5 := by
  decide

/-- C2 amended: on the answers 0, 1, 1, 3 the loop returns on observing 3
after exactly 4 reads; on 0, 1, 1, 2 it has made 4 reads, holds status 2 and
has not returned, and whatever the ledger answers next is read too. -/
theorem pollLoop_0113_returns_after_four (task : Task) :
    pollLoop (start task) [0, 1, 1, 3]
        = .returned (pollBody (pollBody (pollBody (pollBody (start task) 0) 1) 1) 3) ∧
      (pollLoop (start task) [0, 1, 1, 3]).run.reads = 4 ∧
      (pollLoop (start task) [0, 1, 1, 3]).run.task.ethStatus = 3 ∧
      (pollLoop (start task) [0, 1, 1, 2]).isReturned = false ∧
      (pollLoop (start task) [0, 1, 1, 2]).run.reads = 4 ∧
      (pollLoop (start task) [0, 1, 1, 2]).run.task.ethStatus = 2 ∧
      ∀ (a : Nat) (rest : List Nat),
        pollLoop (start task) (0 :: 1 :: 1 :: 2 :: a :: rest)
          = pollLoop (pollBody (pollBody (pollBody (pollBody (start task) 0) 1) 1) 2)
              (a :: rest) ∧
        5 ≤ (pollLoop (start task) (0 :: 1 :: 1 :: 2 :: a :: rest)).run.reads := by
  refine ⟨rfl, rfl, rfl, rfl, rfl, rfl, fun a rest => ⟨rfl, ?_⟩⟩
  have step : pollLoop (start task) (0 :: 1 :: 1 :: 2 :: a :: rest)
      = pollLoop (pollBody (pollBody (pollBody (pollBody (start task) 0) 1) 1) 2)
          (a :: rest) := rfl
  rw [step]
  have := pollLoop_reads_ge rest a
    (pollBody (pollBody (pollBody (pollBody (start task) 0) 1) 1) 2)
  simpa [pollBody, start] using this

/-- C3: when some answer is 3, the polling loop returns, having made exactly
as many reads as the position of the first 3 among the answers (the values
before it, repeated or not, are read and passed over), with `task.ethStatus`
equal to 3. -/
theorem pollLoop_returns_at_first_three (r0 : Run) (answers : List Nat)
    (h : 3 ∈ answers) :
    ∃ r, pollLoop r0 answers = .returned r ∧
      r.reads = r0.reads + (answers.indexOf 3 + 1) ∧
      r.task.ethStatus = 3 ∧
      r.task = getTaskRecordStatus r0.task 3 := by
  refine ⟨_, pollLoop_mem answers r0 h, ?_, rfl, ?_⟩
  · simp only [pollBody, foldl_pollBody_reads, List.length_take]
    have := List.indexOf_le_length (a := 3) (l := answers)
    omega
  · simp only [pollBody, getTaskRecordStatus]
    rw [foldl_pollBody_task]

/-- Witness for `pollLoop_returns_at_first_three`: the answers
1, 1, 2, 0, 3, 3, with the first 3 in fifth position. -/
theorem pollLoop_returns_at_first_three_witness :
    3 ∈ [1, 1, 2, 0, 3, 3] ∧
      ∃ r, pollLoop (start (taskAt 1)) [1, 1, 2, 0, 3, 3] = .returned r ∧
        r.reads = 0 + (4 + 1) ∧ r.task.ethStatus = 3 ∧
        r.task = getTaskRecordStatus (taskAt 1) 3 :=
  ⟨by decide,
   pollLoop_returns_at_first_three (start (taskAt 1)) [1, 1, 2, 0, 3, 3] (by decide)⟩

/-- C4 as stated fails: on the answers 0, 1, 0 the loop has made three reads
and has not stopped; a fourth answer is read, and on 0, 1, 0, 3 the loop
returns normally after four reads. -/
theorem pollLoop_010_goes_on :
    (pollLoop (start (taskAt 0)) [0, 1, 0]).isReturned = false ∧
      (pollLoop (start (taskAt 0)) [0, 1, 0]).run.reads = 3 ∧
      (pollLoop (start (taskAt 0)) [0, 1, 0, 1]).run.reads = 4 ∧
      pollLoop (start (taskAt 0)) [0, 1, 0, 3]
        = .returned (pollBody (pollBody (pollBody (pollBody (start (taskAt 0)) 0) 1) 0) 3) := by
  decide

/-- C4 amended: on the answers 0, 1, 0 the loop does not stop at the third
read: it holds status 0 after three reads and goes on to read whatever the
ledger answers next; continued with a 3 it returns after four reads with
status 3. -/
theorem pollLoop_regression_not_detected (task : Task) :
    pollLoop (start task) [0, 1, 0]
        = .waiting (pollBody (pollBody (pollBody (start task) 0) 1) 0) ∧
      (pollLoop (start task) [0, 1, 0]).run.reads = 3 ∧
      (pollLoop (start task) [0, 1, 0]).run.task.ethStatus = 0 ∧
      (∀ (a : Nat) (rest : List Nat),
        pollLoop (start task) (0 :: 1 :: 0 :: a :: rest)
          = pollLoop (pollBody (pollBody (pollBody (start task) 0) 1) 0) (a :: rest) ∧
        4 ≤ (pollLoop (start task) (0 :: 1 :: 0 :: a :: rest)).run.reads) ∧
      (pollLoop (start task) [0, 1, 0, 3]).isReturned = true ∧
      (pollLoop (start task) [0, 1, 0, 3]).run.reads = 4 ∧
      (pollLoop (start task) [0, 1, 0, 3]).run.task.ethStatus = 3 := by
  refine ⟨rfl, rfl, rfl, fun a rest => ⟨rfl, ?_⟩, rfl, rfl, rfl⟩
  have step : pollLoop (start task) (0 :: 1 :: 0 :: a :: rest)
      = pollLoop (pollBody (pollBody (pollBody (start task) 0) 1) 0) (a :: rest) := rfl
  rw [step]
  have := pollLoop_reads_ge rest a (pollBody (pollBody (pollBody (start task) 0) 1) 0)
  simpa [pollBody, start] using this

/-- C5 as stated fails: no number bounds the reads the loop makes against
ledgers that never answer a terminal status; against twelve answers 1 it
makes twelve reads and has not stopped. -/
theorem pollLoop_no_attempt_bound :
    (¬ ∃ maxAttempts : Nat, ∀ answers : List Nat,
        (∀ s ∈ answers, terminal s = false) →
          (pollLoop (start (taskAt 0)) answers).run.reads ≤ maxAttempts) ∧
      (pollLoop (start (taskAt 0)) (List.replicate 12 1)).isReturned = false ∧
      (pollLoop (start (taskAt 0)) (List.replicate 12 1)).run.reads = 12 := by
  refine ⟨?_, by decide, by decide⟩
  rintro ⟨m, hm⟩
  have hterm : ∀ s ∈ List.replicate (m + 1) 1, terminal s = false := by
    intro s hs
    rw [List.eq_of_mem_replicate hs]
    rfl
  have hnot : 3 ∉ List.replicate (m + 1) 1 := by
    intro h3
    have := List.eq_of_mem_replicate h3
    omega
  have hle := hm _ hterm
  rw [pollLoop_not_mem _ _ hnot] at hle
  simp only [Outcome.run, foldl_pollBody_reads, List.length_replicate, start] at hle
  omega

/-- C5 amended: against answers none of which is 3 (so in particular against
a ledger that never answers a terminal status) the loop has no attempt bound
and raises no error: it has read every answer, one read per answer, has not
returned, and is waiting for the next one. -/
theorem pollLoop_without_three_keeps_polling (r0 : Run) (answers : List Nat)
    (h : ∀ s ∈ answers, s ≠ 3) :
    pollLoop r0 answers = .waiting (answers.foldl pollBody r0) ∧
      (pollLoop r0 answers).isReturned = false ∧
      (pollLoop r0 answers).run.reads = r0.reads + answers.length := by
  have hnot : 3 ∉ answers := fun h3 => h 3 h3 rfl
  rw [pollLoop_not_mem answers r0 hnot]
  exact ⟨rfl, rfl, foldl_pollBody_reads answers r0⟩

/-- Witness for `pollLoop_without_three_keeps_polling`: the answers
1, 1, 0, 2, 1. -/
theorem pollLoop_without_three_keeps_polling_witness :
    (∀ s ∈ [1, 1, 0, 2, 1], s ≠ 3) ∧
      pollLoop (start (taskAt 0)) [1, 1, 0, 2, 1]
        = .waiting ([1, 1, 0, 2, 1].foldl pollBody (start (taskAt 0))) ∧
      (pollLoop (start (taskAt 0)) [1, 1, 0, 2, 1]).isReturned = false ∧
      (pollLoop (start (taskAt 0)) [1, 1, 0, 2, 1]).run.reads = 0 + 5 :=
  ⟨by decide,
   pollLoop_without_three_keeps_polling (start (taskAt 0)) [1, 1, 0, 2, 1] (by decide)⟩

/-- C6 as stated fails: against a ledger that answers 1 to every read the
polling step runs into its time limit after nine passes, and the runner
starts the next step, which calls `getTaskResult`: no read before that call
answered a terminal status. -/
theorem fetch_after_failed_polling_step :
    (flowPolling sampleWorld (List.replicate 12 1)).isReturned = false ∧
      (flowPolling sampleWorld (List.replicate 12 1)).run.reads = 10 ∧
      ∃ before after,
        (flow sampleWorld (List.replicate 12 1)).calls
          = before ++ Call.getTaskResult :: after ∧
        ∀ s, Call.getTaskRecordStatus s ∈ before → terminal s = false := by
  refine ⟨by decide, by decide,
    (flowPolling sampleWorld (List.replicate 12 1)).run.calls, [Call.decryptTaskResult],
    by decide, ?_⟩
  intro s hs
  have hcalls : (flowPolling sampleWorld (List.replicate 12 1)).run.calls
      = Call.computeTask (computeTaskCall sampleWorld.toGrains "0xacc0" "0xca1c")
        :: Call.getTaskRecordStatus 1
        :: (List.replicate 9 [Call.sleep 1000, Call.getTaskRecordStatus 1]).flatten := by
    decide
  rw [hcalls] at hs
  simp only [List.mem_cons, reduceCtorEq, Call.getTaskRecordStatus.injEq, false_or,
    List.mem_flatten, List.mem_replicate] at hs
  rcases hs with rfl | ⟨l, ⟨_, rfl⟩, hl⟩
  · rfl
  · simp only [List.mem_cons, reduceCtorEq, Call.getTaskRecordStatus.injEq, false_or,
      List.mem_singleton, List.not_mem_nil, or_false] at hl
    rw [hl]
    rfl

/-- C6 amended: in the end-to-end flow, whenever the polling step returns
(the loop is left within the time limit of its step), every `getTaskResult`
call comes after a read of the task record that answered a terminal
`ethStatus` (the 3 on which the loop returned). -/
theorem fetch_preceded_by_terminal_read (w : World) (answers : List Nat)
    (before after : List Call)
    (hret : (flowPolling w answers).isReturned = true)
    (h : (flow w answers).calls = before ++ Call.getTaskResult :: after) :
    ∃ s, Call.getTaskRecordStatus s ∈ before ∧ terminal s = true := by
  have hread := flowPolling_returned_read w answers hret
  obtain ⟨ext, hext, hno⟩ := flowPolling_calls w answers
  have hbase : Call.getTaskResult ∉ (flowPolling w answers).run.calls := by
    rw [hext]; simp [hno]
  obtain ⟨tail, htail⟩ := stepResult_calls (flowPolling w answers).run w.worker w.decrypted
  unfold flow at h
  rw [htail] at h
  rcases List.append_eq_append_iff.mp h with ⟨m, hb, _⟩ | ⟨m, hb, ht⟩
  · exact ⟨3, by rw [hb]; simp [hread], rfl⟩
  · cases m with
    | nil =>
      refine ⟨3, ?_, rfl⟩
      rw [hb] at hread
      simpa using hread
    | cons c m =>
      have hc : Call.getTaskResult = c := by
        have := congrArg List.head? ht
        simpa using this
      exact absurd (by rw [hb, hc]; simp) hbase

/-- Witness for `fetch_preceded_by_terminal_read`: the ledger answers
1, 1, 3; the fetch is the seventh call, after the read that answered 3. -/
theorem fetch_preceded_by_terminal_read_witness :
    (flowPolling sampleWorld [1, 1, 3]).isReturned = true ∧
      (flow sampleWorld [1, 1, 3]).calls
        = [Call.computeTask (computeTaskCall sampleWorld.toGrains "0xacc0" "0xca1c"),
            Call.getTaskRecordStatus 1, Call.sleep 1000, Call.getTaskRecordStatus 1,
            Call.sleep 1000, Call.getTaskRecordStatus 3]
          ++ Call.getTaskResult :: [Call.decryptTaskResult] ∧
      ∃ s, Call.getTaskRecordStatus s
          ∈ [Call.computeTask (computeTaskCall sampleWorld.toGrains "0xacc0" "0xca1c"),
              Call.getTaskRecordStatus 1, Call.sleep 1000, Call.getTaskRecordStatus 1,
              Call.sleep 1000, Call.getTaskRecordStatus 3] ∧
        terminal s = true :=
  ⟨by decide, by decide,
   fetch_preceded_by_terminal_read sampleWorld [1, 1, 3]
     [Call.computeTask (computeTaskCall sampleWorld.toGrains "0xacc0" "0xca1c"),
       Call.getTaskRecordStatus 1, Call.sleep 1000, Call.getTaskRecordStatus 1,
       Call.sleep 1000, Call.getTaskRecordStatus 3]
     [Call.decryptTaskResult] (by decide) (by decide)⟩

/-- C7 as stated fails: the `computeTask` call of the test does not carry the
signature add(uint256,uint256). -/
theorem computeTask_signature_not_uint256 :
    ¬ ∃ a, Call.computeTask a ∈ (flow sampleWorld [1, 3]).calls ∧
        a.fn = "add(uint256,uint256)" := by
  rintro ⟨a, hmem, hfn⟩
  have hcalls : (flow sampleWorld [1, 3]).calls
      = [Call.computeTask (computeTaskCall sampleWorld.toGrains "0xacc0" "0xca1c"),
          Call.getTaskRecordStatus 1, Call.sleep 1000, Call.getTaskRecordStatus 3,
          Call.getTaskResult, Call.decryptTaskResult] := by decide
  rw [hcalls] at hmem
  simp only [List.mem_cons, Call.computeTask.injEq, List.mem_singleton, reduceCtorEq,
    or_false, List.not_mem_nil] at hmem
  rw [hmem] at hfn
  revert hfn
  decide

/-- C7 amended: the test submits the task with the function signature
add(uint,uint), exactly the two positional arguments 24 and 67, each tagged
uint256, and gas limit 1; this `computeTask` call is the first call of the
flow. -/
theorem computeTask_submission (w : World) (answers : List Nat) :
    (flow w answers).calls.head?
        = some (Call.computeTask (computeTaskCall w.toGrains w.account0 w.calculatorAddr)) ∧
      (computeTaskCall w.toGrains w.account0 w.calculatorAddr).fn = "add(uint,uint)" ∧
      (computeTaskCall w.toGrains w.account0 w.calculatorAddr).args
        = [(24, "uint256"), (67, "uint256")] ∧
      (computeTaskCall w.toGrains w.account0 w.calculatorAddr).gasLimit = 1 := by
  obtain ⟨ext, hext, _⟩ := flowPolling_calls w answers
  obtain ⟨tail, htail⟩ := stepResult_calls (flowPolling w answers).run w.worker w.decrypted
  refine ⟨?_, rfl, rfl, rfl⟩
  unfold flow
  rw [htail, hext]
  rfl

end Enigma

namespace DepositDialog

theorem lookupOwn_writeOwn_same (props : List (String × Val)) (name : String)
    (value : Val) : lookupOwn (writeOwn props name value) name = value := by
  induction props with
  | nil => simp [writeOwn, lookupOwn]
  | cons kv rest ih =>
    obtain ⟨k, v⟩ := kv
    by_cases hk : k = name
    · simp [writeOwn, lookupOwn, hk]
    · simp [writeOwn, lookupOwn, hk, ih]

theorem lookupOwn_writeOwn_other (props : List (String × Val)) (name other : String)
    (value : Val) (h : other ≠ name) :
    lookupOwn (writeOwn props name value) other = lookupOwn props other := by
  induction props with
  | nil => simp [writeOwn, lookupOwn, Ne.symm h]
  | cons kv rest ih =>
    obtain ⟨k, v⟩ := kv
    by_cases hk : k = name
    · simp [writeOwn, lookupOwn, hk, Ne.symm h]
    · simp [writeOwn, lookupOwn, hk, ih]

theorem getProp_setProp_same (o : Obj) (name : String) (value : Val)
    (h : name ≠ "__proto__") :
    getProp (setProp o name value) name = value := by
  simp [getProp, setProp, h, lookupOwn_writeOwn_same]

theorem getProp_setProp_other (o : Obj) (name other : String) (value : Val)
    (h : other ≠ name) :
    getProp (setProp o name value) other = getProp o other := by
  unfold setProp getProp
  split
  · cases value <;> rfl
  · exact lookupOwn_writeOwn_other o.props name other value h

theorem setProp_proto (o : Obj) (name : String) (value : Val)
    (h : name ≠ "__proto__") :
    (setProp o name value).proto = o.proto := by
  simp [setProp, h]

theorem handle_amountOk (s : State) (e : UiEvent) (hs : AmountOk s)
    (he : ∀ c, e = UiEvent.change c → c.name ≠ "amount") :
    AmountOk (handle s e).1 ∧
      ∀ deal deposit, Effect.makeDeposit deal deposit ∈ (handle s e).2 →
        getProp deposit "amount" = getProp deal "deposit" := by
  cases e with
  | close => exact ⟨hs, by simp [handle, handleClose]⟩
  | makeDeposit =>
    refine ⟨hs, ?_⟩
    intro deal deposit hmem
    simp only [handle, handleMakeDeposit, List.mem_singleton, Effect.makeDeposit.injEq] at hmem
    rw [hmem.1, hmem.2]
    exact hs
  | change c =>
    refine ⟨?_, by simp [handle, updateDepositState]⟩
    have hne : "amount" ≠ c.name := Ne.symm (he c rfl)
    simp only [AmountOk, handle, updateDepositState, setState, Option.getD_some,
      Option.getD_none]
    rw [getProp_setProp_other _ _ _ _ hne]
    exact hs

theorem runEvents_amountOk (events : List UiEvent) (s : State) (hs : AmountOk s)
    (he : ∀ c, UiEvent.change c ∈ events → c.name ≠ "amount") :
    AmountOk (runEvents s events).1 ∧
      ∀ deal deposit, Effect.makeDeposit deal deposit ∈ (runEvents s events).2 →
        getProp deposit "amount" = getProp deal "deposit" := by
  induction events generalizing s with
  | nil => exact ⟨hs, by simp [runEvents]⟩
  | cons e rest ih =>
    have h1 := handle_amountOk s e hs (fun c hc => he c (by simp [hc]))
    have h2 := ih (handle s e).1 h1.1 (fun c hc => he c (by simp [hc]))
    refine ⟨h2.1, ?_⟩
    intro deal deposit hmem
    simp only [runEvents, List.mem_append] at hmem
    rcases hmem with hm | hm
    · exact h1.2 deal deposit hm
    · exact h2.2 deal deposit hm

/-- C8: from a state left by `componentWillReceiveProps`, after any sequence
of `handleClose`, `handleMakeDeposit` and `updateDepositState` events whose
field name is not "amount", `state.deposit.amount` equals `state.deal.deposit`,
and every `props.makeDeposit(deal, deposit)` call made on the way has
`deposit.amount` equal to `deal.deposit`. -/
theorem deposit_amount_invariant (s0 s : State) (nextProps : Props)
    (events : List UiEvent)
    (hprops : componentWillReceiveProps s0 nextProps = some s)
    (hnames : ∀ c, UiEvent.change c ∈ events → c.name ≠ "amount") :
    getProp (runEvents s events).1.deposit "amount"
        = getProp (runEvents s events).1.deal "deposit" ∧
      ∀ deal deposit, Effect.makeDeposit deal deposit ∈ (runEvents s events).2 →
        getProp deposit "amount" = getProp deal "deposit" := by
  have hs : AmountOk s := by
    unfold componentWillReceiveProps at hprops
    cases hd : nextProps.deal with
    | none => simp [hd] at hprops
    | some deal =>
      simp only [hd, Option.some.injEq] at hprops
      rw [← hprops]
      simp [AmountOk, setState, getProp, literal, lookupOwn]
  exact runEvents_amountOk events s hs hnames

/-- Witness for `deposit_amount_invariant`: props carrying the sample deal,
then an address is typed, the deposit is made and the dialog is closed. -/
theorem deposit_amount_invariant_witness :
    componentWillReceiveProps initialState { open_ := true, deal := some sampleDeal }
        = some { open_ := true, deal := sampleDeal
                 deposit := literal [("amount", Val.num 5)] } ∧
      (runEvents { open_ := true, deal := sampleDeal, deposit := literal [("amount", Val.num 5)] }
          [UiEvent.change { name := "destinationAddress", value := Val.str "0xd3" },
            UiEvent.makeDeposit, UiEvent.close]).2
        = [Effect.preventDefault,
            Effect.makeDeposit sampleDeal
              (literal [("amount", Val.num 5), ("destinationAddress", Val.str "0xd3")]),
            Effect.onClose] ∧
      (getProp (runEvents
            { open_ := true, deal := sampleDeal, deposit := literal [("amount", Val.num 5)] }
          [UiEvent.change { name := "destinationAddress", value := Val.str "0xd3" },
            UiEvent.makeDeposit, UiEvent.close]).1.deposit "amount"
        = getProp (runEvents
            { open_ := true, deal := sampleDeal, deposit := literal [("amount", Val.num 5)] }
          [UiEvent.change { name := "destinationAddress", value := Val.str "0xd3" },
            UiEvent.makeDeposit, UiEvent.close]).1.deal "deposit" ∧
        ∀ deal deposit, Effect.makeDeposit deal deposit
            ∈ (runEvents
                { open_ := true, deal := sampleDeal, deposit := literal [("amount", Val.num 5)] }
              [UiEvent.change { name := "destinationAddress", value := Val.str "0xd3" },
                UiEvent.makeDeposit, UiEvent.close]).2 →
          getProp deposit "amount" = getProp deal "deposit") :=
  ⟨by decide, by decide,
   deposit_amount_invariant initialState
     { open_ := true, deal := sampleDeal, deposit := literal [("amount", Val.num 5)] }
     { open_ := true, deal := some sampleDeal }
     [UiEvent.change { name := "destinationAddress", value := Val.str "0xd3" },
       UiEvent.makeDeposit, UiEvent.close]
     (by decide)
     (by
       intro c hc
       simp only [List.mem_cons, UiEvent.change.injEq, reduceCtorEq, List.mem_singleton,
         or_false, List.not_mem_nil] at hc
       rw [hc]
       decide)⟩

/-- C9: with a defined deal in `nextProps`, `componentWillReceiveProps`
leaves `open` equal to `nextProps.open`, `deal` equal to `nextProps.deal` and
`deposit` equal to the one-field object with `amount` set to
`nextProps.deal.deposit`, whatever the state was before: a destination
address, or any other field but `amount`, reads as undefined afterwards. -/
theorem componentWillReceiveProps_resets_deposit (s : State) (nextProps : Props)
    (deal : Obj) (h : nextProps.deal = some deal) :
    componentWillReceiveProps s nextProps
        = some { open_ := nextProps.open_
                 deal := deal
                 deposit := literal [("amount", getProp deal "deposit")] } ∧
      ∀ s1, componentWillReceiveProps s nextProps = some s1 →
        s1.deposit.props.length = 1 ∧
        getProp s1.deposit "amount" = getProp deal "deposit" ∧
        getProp s1.deposit "destinationAddress" = Val.undefined ∧
        ∀ name, name ≠ "amount" → getProp s1.deposit name = Val.undefined := by
  have hres : componentWillReceiveProps s nextProps
      = some { open_ := nextProps.open_
               deal := deal
               deposit := literal [("amount", getProp deal "deposit")] } := by
    simp [componentWillReceiveProps, h, setState]
  refine ⟨hres, ?_⟩
  intro s1 h1
  rw [hres] at h1
  rw [← Option.some.inj h1]
  refine ⟨rfl, by simp [getProp, literal, lookupOwn], by simp [getProp, literal, lookupOwn], ?_⟩
  intro name hname
  simp [getProp, literal, lookupOwn, Ne.symm hname]

/-- Witness for `componentWillReceiveProps_resets_deposit`: a state holding
a typed destination address receives the sample deal. -/
theorem componentWillReceiveProps_resets_deposit_witness :
    (({ open_ := false, deal := some sampleDeal } : Props).deal = some sampleDeal) ∧
      (componentWillReceiveProps
          { open_ := true, deal := literal [("deposit", Val.num 9)],
            deposit := literal
              [("amount", Val.num 9), ("destinationAddress", Val.str "0xd3")] }
          { open_ := false, deal := some sampleDeal }
        = some { open_ := false
                 deal := sampleDeal
                 deposit := literal [("amount", getProp sampleDeal "deposit")] } ∧
      ∀ s1, componentWillReceiveProps
          { open_ := true, deal := literal [("deposit", Val.num 9)],
            deposit := literal
              [("amount", Val.num 9), ("destinationAddress", Val.str "0xd3")] }
          { open_ := false, deal := some sampleDeal } = some s1 →
        s1.deposit.props.length = 1 ∧
        getProp s1.deposit "amount" = getProp sampleDeal "deposit" ∧
        getProp s1.deposit "destinationAddress" = Val.undefined ∧
        ∀ name, name ≠ "amount" → getProp s1.deposit name = Val.undefined) :=
  ⟨rfl,
   componentWillReceiveProps_resets_deposit
     { open_ := true, deal := literal [("deposit", Val.num 9)],
       deposit := literal [("amount", Val.num 9), ("destinationAddress", Val.str "0xd3")] }
     { open_ := false, deal := some sampleDeal } sampleDeal rfl⟩

/-- C10 as stated fails: on a change event with the field name `__proto__`
and the value "x", `updateDepositState` leaves the `deposit` object as it
was; `deposit` does not map `__proto__` to "x". -/
theorem updateDepositState_proto_not_written :
    (updateDepositState
        { open_ := true, deal := sampleDeal, deposit := literal [("amount", Val.num 5)] }
        { name := "__proto__", value := Val.str "x" }).1.deposit
      = literal [("amount", Val.num 5)] ∧
    getProp (updateDepositState
        { open_ := true, deal := sampleDeal, deposit := literal [("amount", Val.num 5)] }
        { name := "__proto__", value := Val.str "x" }).1.deposit "__proto__"
      ≠ Val.str "x" := by
  decide

/-- C10 amended: `updateDepositState` on a change event with a name n other
than `__proto__` and value v leaves a `deposit` that maps n to v and agrees
with the previous `deposit` on every other field (its prototype is kept as
well), and leaves `open` and `deal` as they were; `handleClose` and
`handleMakeDeposit` set `open` to false and leave `deal` and `deposit` as
they were. -/
theorem handlers_frame (s : State) (event : ChangeEvent)
    (hname : event.name ≠ "__proto__") :
    getProp (updateDepositState s event).1.deposit event.name = event.value ∧
      (∀ other, other ≠ event.name →
        getProp (updateDepositState s event).1.deposit other = getProp s.deposit other) ∧
      (updateDepositState s event).1.deposit.proto = s.deposit.proto ∧
      (updateDepositState s event).1.open_ = s.open_ ∧
      (updateDepositState s event).1.deal = s.deal ∧
      (handleClose s).1 = { open_ := false, deal := s.deal, deposit := s.deposit } ∧
      (handleMakeDeposit s).1 = { open_ := false, deal := s.deal, deposit := s.deposit } := by
  refine ⟨?_, ?_, ?_, rfl, rfl, rfl, rfl⟩
  · exact getProp_setProp_same s.deposit event.name event.value hname
  · intro other hother
    exact getProp_setProp_other s.deposit event.name other event.value hother
  · exact setProp_proto s.deposit event.name event.value hname

/-- Witness for `handlers_frame`: a destination address is typed into a
dialog that shows the sample deal. -/
theorem handlers_frame_witness :
    ("destinationAddress" ≠ "__proto__") ∧
      (updateDepositState
          { open_ := true, deal := sampleDeal, deposit := literal [("amount", Val.num 5)] }
          { name := "destinationAddress", value := Val.str "0xd3" }).1
        = { open_ := true, deal := sampleDeal
            deposit := literal [("amount", Val.num 5), ("destinationAddress", Val.str "0xd3")] } ∧
      getProp (updateDepositState
          { open_ := true, deal := sampleDeal, deposit := literal [("amount", Val.num 5)] }
          { name := "destinationAddress", value := Val.str "0xd3" }).1.deposit
          "destinationAddress" = Val.str "0xd3" :=
  ⟨by decide, by decide,
   (handlers_frame
      { open_ := true, deal := sampleDeal, deposit := literal [("amount", Val.num 5)] }
      { name := "destinationAddress", value := Val.str "0xd3" } (by decide)).1⟩

end DepositDialog
